import Mathlib

/-!
Verification of the `ActionValue` policy layer of Tensorforce
(`src/tensorforce/core/policies/action_value.py`).

The embedding models:
* `TensorSpec` / signatures: shape and dtype contracts (`input_signature`,
  `output_signature` of `ActionValue`);
* batched tensors as a shape together with row-major flattened data over `Int`
  (the claims under study are structural laws about reshape, concatenation and
  max-reduction, which do not depend on the numeric carrier);
* the five operations of the layer: `actions_value`, `actions_values`,
  `all_actions_values`, `states_value`, `states_values`.  The two abstract
  estimator primitives are modelled as optional override fields; a base
  (non-subclassed) instance carries `none` and invoking the primitive yields
  the `notImplemented` error, mirroring `raise NotImplementedError`.
-/

/-- Dtype enumeration of `TensorSpec` (only the constructors this layer uses). -/
inductive TType where
  | int
  | float
  | bool
deriving DecidableEq, Repr

/-- `TensorSpec`: dtype together with a shape tuple. -/
structure TensorSpec where
  type : TType
  shape : List Nat
deriving DecidableEq, Repr

/-- `TensorSpec.size`: product of the shape dims. -/
def TensorSpec.size (s : TensorSpec) : Nat :=
  s.shape.prod

/-- A signature produced by `TensorSpec.signature(batched=...)`: the spec's
dtype and shape plus the batched flag. -/
structure Signature where
  type : TType
  shape : List Nat
  batched : Bool
deriving DecidableEq, Repr

/-- `TensorSpec.signature(batched=b)`. -/
def TensorSpec.signature (s : TensorSpec) (batched : Bool) : Signature :=
  ⟨s.type, s.shape, batched⟩

/-- An entry of a `SignatureDict`: either a single tensor signature or a
nested ordered mapping of signatures (as produced by `spec.signature()` on a
dict-like spec such as `states_spec`). -/
inductive SigEntry where
  | leaf : Signature → SigEntry
  | dict : List (String × Signature) → SigEntry
deriving DecidableEq, Repr

/-- `SignatureDict`: ordered mapping from names to signature entries.  The
distinguished unnamed single return value `SignatureDict(singleton=x)` is
stored under the key `"singleton"`, as in the source class. -/
abbrev SignatureDict : Type :=
  List (String × SigEntry)

/-- A dict-like spec (`states_spec`, `actions_spec`, ...): ordered mapping
from component name to `TensorSpec`. -/
abbrev SpecMap : Type :=
  List (String × TensorSpec)

/-- `spec.signature(batched=True)` on a dict-like spec: componentwise batched
signatures, preserving order. -/
def SpecMap.signatureAll (m : SpecMap) : List (String × Signature) :=
  m.map fun ns => (ns.1, ns.2.signature true)

/-- Sum of the flattened sizes of all action components:
`sum(spec.size for spec in self.actions_spec.values())`. -/
def SpecMap.totalSize (m : SpecMap) : Nat :=
  (m.map fun ns => ns.2.size).sum

/-- A per-action-component distribution, as consulted by `output_signature`:
only its `output_signature(function='all_action_values').singleton()` matters
to this layer. -/
structure Distribution where
  all_action_values_sig : Signature
deriving DecidableEq, Repr

/-- A batched tensor: shape together with row-major flattened data. -/
structure Tensor where
  shape : List Nat
  data : List Int
deriving DecidableEq, Repr

/-- An ordered mapping from component name to tensor (a `TensorDict` value). -/
abbrev Components : Type :=
  List (String × Tensor)

/-- Maximum of a list of values, head-seeded fold (the reduction underlying
`tf.math.reduce_max` on a non-empty axis; `0` is an arbitrary value on the
empty list, never reached under the well-formedness hypotheses used below). -/
def listMax : List Int → Int
  | [] => 0
  | x :: xs => xs.foldl max x

/-- Index of the first maximal element of a list (the reduction underlying
`tf.math.argmax`). -/
def argmaxIdx : List Int → Nat
  | [] => 0
  | [_] => 0
  | x :: y :: tl => if listMax (y :: tl) ≤ x then 0 else argmaxIdx (y :: tl) + 1

/-- `tf.math.reduce_max(input_tensor=t, axis=-1)`: strip the trailing axis,
each output element is the maximum of the corresponding contiguous chunk of
`k` elements (`k` the trailing-axis width).  On a rank-0 tensor `axis=-1` is
invalid in the backend; the definition returns the input unchanged there. -/
def reduceMaxLast (t : Tensor) : Tensor :=
  match t.shape.getLast? with
  | none => t
  | some k =>
    ⟨t.shape.dropLast,
     (List.range t.shape.dropLast.prod).map fun j =>
       listMax ((t.data.drop (j * k)).take k)⟩

/-- `tf.reshape(tensor=t, shape=(-1, size))`: data unchanged, first dim
inferred from the element count. -/
def tfReshape (t : Tensor) (size : Nat) : Tensor :=
  ⟨[t.data.length / size, size], t.data⟩

/-- Batch dimension of a (two-dimensional) tensor. -/
def Tensor.batch (t : Tensor) : Nat :=
  t.shape.headD 0

/-- Trailing width of a two-dimensional tensor. -/
def Tensor.width (t : Tensor) : Nat :=
  t.shape.getD 1 0

/-- Row `j` of a two-dimensional tensor, as a flat list. -/
def rowSlice (t : Tensor) (j : Nat) : List Int :=
  (t.data.drop (j * t.width)).take t.width

/-- `tf.concat(values=ts, axis=1)` for two-dimensional tensors: batchwise
concatenation of the rows, batch dim taken from the first tensor. -/
def tfConcat1 (ts : List Tensor) : Tensor :=
  let b := (ts.headD ⟨[], []⟩).batch
  ⟨[b, (ts.map Tensor.width).sum],
   (List.range b).flatMap fun j => ts.flatMap fun t => rowSlice t j⟩

/-- `TensorDict.fmap(function, zip_values=specs)`: map a binary function over
a component dict zipped positionally against the parallel spec dict,
preserving the component names. -/
def fmapZipSpecs (f : Tensor → TensorSpec → Tensor) :
    Components → SpecMap → Components
  | (n, t) :: vs, s :: ss => (n, f t s.2) :: fmapZipSpecs f vs ss
  | _, _ => []

/-- Gather along the trailing axis: element `j` of the result picks, inside
the `j`-th trailing chunk of `t`, the entry selected by index tensor `idx`. -/
def gatherLast (t : Tensor) (idx : Tensor) : Tensor :=
  match t.shape.getLast? with
  | none => t
  | some k =>
    ⟨t.shape.dropLast,
     (List.range t.shape.dropLast.prod).map fun j =>
       t.data.getD (j * k + (idx.data.getD j 0).toNat) 0⟩

/-- The greedy joint-action component for one value table: the per-position
argmax of the trailing (choice) axis. -/
def greedyAction (t : Tensor) : Tensor :=
  match t.shape.getLast? with
  | none => t
  | some k =>
    ⟨t.shape.dropLast,
     (List.range t.shape.dropLast.prod).map fun j =>
       ((argmaxIdx ((t.data.drop (j * k)).take k) : Nat) : Int)⟩

/-- The four batched tensor groups accepted by the action-free operations. -/
structure Input4 where
  states : Components
  horizons : Tensor
  internals : Components
  auxiliaries : Components

/-- The five batched tensor groups accepted by `actions_value` and
`actions_values`: the four action-free groups plus a concrete joint action. -/
structure Input5 extends Input4 where
  actions : Components

/-- Failure signal of the layer: the `NotImplementedError` raised by the
abstract estimator primitives on a base instance. -/
inductive PolicyError where
  | notImplemented
deriving DecidableEq, Repr

/-- The `ActionValue` policy layer.  The specs and the distributions mapping
are the read-only shared state; `parent_input_signature` and
`parent_output_signature` model the inherited `Policy` declaration chain; the
two `..._impl` fields model the concrete subclass overrides of the abstract
estimator primitives (`none` on a base instance). -/
structure ActionValue where
  states_spec : SpecMap
  internals_spec : SpecMap
  auxiliaries_spec : SpecMap
  actions_spec : SpecMap
  distributions : List (String × Distribution)
  parent_input_signature : String → SignatureDict
  parent_output_signature : String → SignatureDict
  actions_values_impl : Option (Input5 → Components)
  all_actions_values_impl : Option (Input4 → Components)

/-- `ActionValue.input_signature`, translated branch by branch. -/
def ActionValue.input_signature (p : ActionValue) (function : String) :
    SignatureDict :=
  if function = "actions_value" then
    [("states", .dict p.states_spec.signatureAll),
     ("horizons", .leaf ((TensorSpec.mk .int [2]).signature true)),
     ("internals", .dict p.internals_spec.signatureAll),
     ("auxiliaries", .dict p.auxiliaries_spec.signatureAll),
     ("actions", .dict p.actions_spec.signatureAll)]
  else if function = "actions_values" then
    [("states", .dict p.states_spec.signatureAll),
     ("horizons", .leaf ((TensorSpec.mk .int [2]).signature true)),
     ("internals", .dict p.internals_spec.signatureAll),
     ("auxiliaries", .dict p.auxiliaries_spec.signatureAll),
     ("actions", .dict p.actions_spec.signatureAll)]
  else if function = "all_actions_values" then
    [("states", .dict p.states_spec.signatureAll),
     ("horizons", .leaf ((TensorSpec.mk .int [2]).signature true)),
     ("internals", .dict p.internals_spec.signatureAll),
     ("auxiliaries", .dict p.auxiliaries_spec.signatureAll)]
  else if function = "states_value" then
    [("states", .dict p.states_spec.signatureAll),
     ("horizons", .leaf ((TensorSpec.mk .int [2]).signature true)),
     ("internals", .dict p.internals_spec.signatureAll),
     ("auxiliaries", .dict p.auxiliaries_spec.signatureAll)]
  else if function = "states_values" then
    [("states", .dict p.states_spec.signatureAll),
     ("horizons", .leaf ((TensorSpec.mk .int [2]).signature true)),
     ("internals", .dict p.internals_spec.signatureAll),
     ("auxiliaries", .dict p.auxiliaries_spec.signatureAll)]
  else
    p.parent_input_signature function

/-- `ActionValue.output_signature`, translated branch by branch. -/
def ActionValue.output_signature (p : ActionValue) (function : String) :
    SignatureDict :=
  if function = "actions_value" then
    [("singleton",
      .leaf ((TensorSpec.mk .float [p.actions_spec.totalSize]).signature true))]
  else if function = "actions_values" then
    [("singleton",
      .dict (p.actions_spec.map fun ns =>
        (ns.1, (TensorSpec.mk .float ns.2.shape).signature true)))]
  else if function = "all_actions_values" then
    [("singleton",
      .dict (p.distributions.map fun nd => (nd.1, nd.2.all_action_values_sig)))]
  else if function = "states_value" then
    [("singleton",
      .leaf ((TensorSpec.mk .float [p.actions_spec.totalSize]).signature true))]
  else if function = "states_values" then
    [("singleton",
      .dict (p.actions_spec.map fun ns =>
        (ns.1, (TensorSpec.mk .float ns.2.shape).signature true)))]
  else
    p.parent_output_signature function

/-- The abstract primitive `actions_values`: dispatches to the concrete
subclass override, or raises `NotImplementedError` on a base instance. -/
def ActionValue.actions_values (p : ActionValue) (x : Input5) :
    Except PolicyError Components :=
  match p.actions_values_impl with
  | none => .error .notImplemented
  | some f => .ok (f x)

/-- The abstract primitive `all_actions_values`: dispatches to the concrete
subclass override, or raises `NotImplementedError` on a base instance. -/
def ActionValue.all_actions_values (p : ActionValue) (x : Input4) :
    Except PolicyError Components :=
  match p.all_actions_values_impl with
  | none => .error .notImplemented
  | some f => .ok (f x)

/-- `ActionValue.actions_value`: call `actions_values`, reshape each
component value to `(-1, spec.size)` zipping against `actions_spec`, then
concatenate the values along axis 1. -/
def ActionValue.actions_value (p : ActionValue) (x : Input5) :
    Except PolicyError Tensor := do
  let av ← p.actions_values x
  let av := fmapZipSpecs (fun t s => tfReshape t s.size) av p.actions_spec
  return tfConcat1 (av.map Prod.snd)

/-- `ActionValue.states_values`: call `all_actions_values` and reduce each
component table by the maximum over its last axis. -/
def ActionValue.states_values (p : ActionValue) (x : Input4) :
    Except PolicyError Components := do
  let av ← p.all_actions_values x
  return av.map fun nt => (nt.1, reduceMaxLast nt.2)

/-- `ActionValue.states_value`: call `states_values`, reshape each component
value to `(-1, spec.size)` zipping against `actions_spec`, then concatenate
the values along axis 1. -/
def ActionValue.states_value (p : ActionValue) (x : Input4) :
    Except PolicyError Tensor := do
  let sv ← p.states_values x
  let sv := fmapZipSpecs (fun t s => tfReshape t s.size) sv p.actions_spec
  return tfConcat1 (sv.map Prod.snd)

/-- Spec-described flattening (sections 4.2 and 4.6 of the specification):
given the batch size, reshape each component's value list to
`(batch, component size)` and concatenate the components along the component
axis, in the given order, to a single flat vector per batch example. -/
def specFlatten (b : Nat) (vals : List Tensor) (sizes : List Nat) : Tensor :=
  ⟨[b, sizes.sum],
   (List.range b).flatMap fun j =>
     (vals.zip sizes).flatMap fun vs => (vs.1.data.drop (j * vs.2)).take vs.2⟩

/-- Default component used with positional `getD` access. -/
def defaultComp : String × Tensor :=
  ("", ⟨[], []⟩)

/-- Conformance of one estimator output component to its action spec at batch
size `b`: positive flattened size and exactly `b * size` elements. -/
def conforms (b : Nat) (v : String × Tensor) (s : String × TensorSpec) : Prop :=
  0 < s.2.size ∧ v.2.data.length = b * s.2.size

instance (b : Nat) (v : String × Tensor) (s : String × TensorSpec) :
    Decidable (conforms b v s) :=
  inferInstanceAs (Decidable (And _ _))

/-- Running example: a composite action space with a two-element `move`
component and a scalar `jump` component. -/
def exActionsSpec : SpecMap :=
  [("move", ⟨.float, [2]⟩), ("jump", ⟨.float, [1]⟩)]

/-- Running example: a single three-element observation component. -/
def exStatesSpec : SpecMap :=
  [("obs", ⟨.float, [3]⟩)]

/-- Example `all_actions_values` table for `move`: batch 2, spec shape `[2]`,
3 discrete choices. -/
def exTableMove : Tensor :=
  ⟨[2, 2, 3], [1, 5, 2, 4, 4, 6, 0, 7, 3, 9, 8, 9]⟩

/-- Example `all_actions_values` table for `jump`: batch 2, spec shape `[1]`,
2 discrete choices. -/
def exTableJump : Tensor :=
  ⟨[2, 1, 2], [3, 1, 2, 8]⟩

/-- Example concrete `all_actions_values` estimator. -/
def exF4 : Input4 → Components := fun _ =>
  [("move", exTableMove), ("jump", exTableJump)]

/-- Example concrete `actions_values` estimator (batch 2, per-component value
tensors shaped by the component spec). -/
def exF5 : Input5 → Components := fun _ =>
  [("move", ⟨[2, 2], [10, 20, 30, 40]⟩), ("jump", ⟨[2, 1], [7, 8]⟩)]

/-- Example `actions_values` estimator consistent with `exF4`: the value of a
joint action is read off the exhaustive table (evaluated here at the greedy
action). -/
def exF5Greedy : Input5 → Components := fun x =>
  (exF4 x.toInput4).map fun nt => (nt.1, gatherLast nt.2 (greedyAction nt.2))

/-- Example parent `Policy` input-signature chain. -/
def exParentIn : String → SignatureDict := fun _ =>
  [("deterministic", .leaf ⟨.bool, [], false⟩)]

/-- Example parent `Policy` output-signature chain. -/
def exParentOut : String → SignatureDict := fun _ =>
  [("singleton", .leaf ⟨.float, [], true⟩)]

/-- A base (non-subclassed) `ActionValue` instance: no estimator overrides. -/
def basePolicy : ActionValue :=
  { states_spec := exStatesSpec
    internals_spec := []
    auxiliaries_spec := []
    actions_spec := exActionsSpec
    distributions := [("move", ⟨⟨.float, [2, 3], true⟩⟩),
                      ("jump", ⟨⟨.float, [1, 2], true⟩⟩)]
    parent_input_signature := exParentIn
    parent_output_signature := exParentOut
    actions_values_impl := none
    all_actions_values_impl := none }

/-- A concrete subclass instance over the example estimators. -/
def exPolicy : ActionValue :=
  { basePolicy with
    actions_values_impl := some exF5
    all_actions_values_impl := some exF4 }

/-- A concrete subclass instance whose `actions_values` is consistent with
its `all_actions_values` table. -/
def exPolicyGreedy : ActionValue :=
  { basePolicy with
    actions_values_impl := some exF5Greedy
    all_actions_values_impl := some exF4 }

/-- A second instance sharing `exPolicy`'s estimator and actions spec but
differing in the other shared state. -/
def exPolicyAlt : ActionValue :=
  { exPolicy with
    states_spec := [("pixels", ⟨.int, [4]⟩)]
    parent_input_signature := fun _ => [("other", .leaf ⟨.bool, [], false⟩)] }

/-- Example action-free batched input (batch 2). -/
def exInput4 : Input4 :=
  ⟨[("obs", ⟨[2, 3], [0, 0, 0, 1, 1, 1]⟩)], ⟨[2, 2], [0, 1, 0, 1]⟩, [], []⟩

/-- Example batched input with a concrete joint action (batch 2). -/
def exInput5 : Input5 :=
  ⟨exInput4, [("move", ⟨[2, 2], [0, 1, 1, 0]⟩), ("jump", ⟨[2, 1], [0, 1]⟩)]⟩

/-- The greedy joint action of the example `all_actions_values` table. -/
def exGreedyActs : Components :=
  (exF4 exInput4).map fun nt => (nt.1, greedyAction nt.2)

lemma foldl_max_max (l : List Int) : ∀ a b : Int,
    l.foldl max (max a b) = max a (l.foldl max b) := by
  induction l with
  | nil => intro a b; rfl
  | cons c l ih =>
    intro a b
    show l.foldl max (max (max a b) c) = max a (l.foldl max (max b c))
    rw [max_assoc, ih]

lemma listMax_cons_cons (x y : Int) (tl : List Int) :
    listMax (x :: y :: tl) = max x (listMax (y :: tl)) := by
  show tl.foldl max (max x y) = max x (tl.foldl max y)
  exact foldl_max_max tl x y

lemma listMax_mem : ∀ (l : List Int), l ≠ [] → listMax l ∈ l := by
  intro l
  induction l with
  | nil => intro h; exact absurd rfl h
  | cons x xs ih =>
    intro _
    cases xs with
    | nil => simp [listMax]
    | cons y tl =>
      rw [listMax_cons_cons]
      rcases max_choice x (listMax (y :: tl)) with h | h
      · rw [h]; exact List.mem_cons_self x (y :: tl)
      · rw [h]; exact List.mem_cons_of_mem x (ih (List.cons_ne_nil y tl))

lemma le_listMax : ∀ (l : List Int), ∀ a ∈ l, a ≤ listMax l := by
  intro l
  induction l with
  | nil => intro a ha; exact absurd ha (List.not_mem_nil a)
  | cons x xs ih =>
    intro a ha
    cases xs with
    | nil =>
      rcases List.mem_cons.mp ha with h | h
      · rw [h]; exact le_refl _
      · exact absurd h (List.not_mem_nil a)
    | cons y tl =>
      rw [listMax_cons_cons]
      rcases List.mem_cons.mp ha with h | h
      · rw [h]; exact le_max_left _ _
      · exact le_trans (ih a h) (le_max_right _ _)

lemma argmaxIdx_lt_length : ∀ (l : List Int), l ≠ [] → argmaxIdx l < l.length := by
  intro l
  induction l with
  | nil => intro h; exact absurd rfl h
  | cons x xs ih =>
    intro _
    cases xs with
    | nil => simp [argmaxIdx]
    | cons y tl =>
      by_cases h : listMax (y :: tl) ≤ x
      · simp [argmaxIdx, h]
      · simp only [argmaxIdx, if_neg h, List.length_cons]
        exact Nat.succ_lt_succ (ih (List.cons_ne_nil y tl))

lemma getD_argmaxIdx : ∀ (l : List Int), l ≠ [] →
    l.getD (argmaxIdx l) 0 = listMax l := by
  intro l
  induction l with
  | nil => intro h; exact absurd rfl h
  | cons x xs ih =>
    intro _
    cases xs with
    | nil => simp [argmaxIdx, listMax]
    | cons y tl =>
      by_cases h : listMax (y :: tl) ≤ x
      · simp only [argmaxIdx, if_pos h, List.getD]
        rw [listMax_cons_cons, max_eq_left h]
        rfl
      · simp only [argmaxIdx, if_neg h]
        rw [listMax_cons_cons, max_eq_right (le_of_not_le h)]
        show (y :: tl).getD (argmaxIdx (y :: tl)) 0 = _
        exact ih (List.cons_ne_nil y tl)

lemma getD_map_range (m j : Nat) (g : Nat → Int) (hj : j < m) :
    (((List.range m).map g).getD j 0) = g j := by
  simp [List.getD_eq_getElem?_getD, List.getElem?_range hj]

lemma chunk_length (L : List Int) (k j m : Nat) (hL : L.length = m * k)
    (hj : j < m) : ((L.drop (j * k)).take k).length = k := by
  have h1 : (j + 1) * k ≤ m * k := Nat.mul_le_mul_right k (Nat.succ_le_of_lt hj)
  rw [Nat.succ_mul] at h1
  simp only [List.length_take, List.length_drop, hL]
  exact Nat.min_eq_left (Nat.le_sub_of_add_le (by omega))

lemma chunk_getD (L : List Int) (k j i : Nat) (hi : i < k) :
    ((L.drop (j * k)).take k).getD i 0 = L.getD (j * k + i) 0 := by
  simp [List.getD_eq_getElem?_getD, List.getElem?_take_of_lt hi, List.getElem?_drop]

lemma reduceMaxLast_of_concat_shape (t : Tensor) (dims : List Nat) (k : Nat)
    (hshape : t.shape = dims ++ [k]) :
    reduceMaxLast t =
      ⟨dims, (List.range dims.prod).map fun j =>
        listMax ((t.data.drop (j * k)).take k)⟩ := by
  simp [reduceMaxLast, hshape, List.getLast?_concat]

lemma fmapZip_widths (b : Nat) : ∀ (vals : Components) (specs : SpecMap),
    List.Forall₂ (conforms b) vals specs →
    ((fmapZipSpecs (fun t s => tfReshape t s.size) vals specs).map Prod.snd).map
        Tensor.width
      = specs.map fun ns => ns.2.size := by
  intro vals specs h
  induction h with
  | nil => rfl
  | cons hd tl ih =>
    simp only [fmapZipSpecs, List.map_cons, ih, List.cons.injEq, and_true]
    rfl

lemma fmapZip_rows (b : Nat) (j : Nat) : ∀ (vals : Components) (specs : SpecMap),
    List.Forall₂ (conforms b) vals specs →
    ((fmapZipSpecs (fun t s => tfReshape t s.size) vals specs).map Prod.snd).flatMap
        (fun t => rowSlice t j)
      = ((vals.map Prod.snd).zip (specs.map fun ns => ns.2.size)).flatMap
          (fun vs => (vs.1.data.drop (j * vs.2)).take vs.2) := by
  intro vals specs h
  induction h with
  | nil => rfl
  | cons hd tl ih =>
    simp only [fmapZipSpecs, List.map_cons, List.zip_cons_cons, List.flatMap_cons, ih]
    congr 1

lemma tfConcat_fmapZip_eq_specFlatten (b : Nat) (vals : Components)
    (specs : SpecMap) (h : List.Forall₂ (conforms b) vals specs)
    (hne : vals ≠ []) :
    tfConcat1 ((fmapZipSpecs (fun t s => tfReshape t s.size) vals specs).map
        Prod.snd)
      = specFlatten b (vals.map Prod.snd) (specs.map fun ns => ns.2.size) := by
  cases h with
  | nil => exact absurd rfl hne
  | cons hd tl =>
    rename_i v s vs ss
    obtain ⟨n, t⟩ := v
    have hw := fmapZip_widths b ((n, t) :: vs) (s :: ss) (List.Forall₂.cons hd tl)
    have hrows := fun j =>
      fmapZip_rows b j ((n, t) :: vs) (s :: ss) (List.Forall₂.cons hd tl)
    have hbatch : (tfReshape t s.2.size).batch = b := by
      simp only [tfReshape, Tensor.batch, List.headD]
      have h2 : t.data.length = b * s.2.size := hd.2
      rw [h2]
      exact Nat.mul_div_cancel b hd.1
    simp only [fmapZipSpecs, List.map_cons] at hw hrows ⊢
    simp only [tfConcat1, specFlatten, List.headD, hbatch, Tensor.mk.injEq]
    constructor
    · simp only [List.map_cons]
      rw [hw]
    · congr 1
      funext j
      exact hrows j

lemma getD_map_of_lt {α β : Type} (g : α → β) (l : List α) (i : Nat)
    (hi : i < l.length) (d : α) (d2 : β) :
    (l.map g).getD i d2 = g (l.getD i d) := by
  simp [List.getD_eq_getElem?_getD, List.getElem?_map, List.getElem?_eq_getElem hi]

lemma reduceMaxLast_eq_gatherLast_greedy (t : Tensor)
    (hwf : t.data.length = t.shape.prod) (hk : 0 < t.shape.getLastD 0) :
    reduceMaxLast t = gatherLast t (greedyAction t) := by
  have hne : t.shape ≠ [] := by
    intro h
    rw [h] at hk
    simp [List.getLastD] at hk
  have hget : t.shape.getLast? = some (t.shape.getLast hne) :=
    List.getLast?_eq_getLast t.shape hne
  set k := t.shape.getLast hne with hkdef
  have hkpos : 0 < k := by
    have : t.shape.getLastD 0 = k := by
      rw [List.getLastD_eq_getLast?, hget]
      rfl
    rw [this] at hk
    exact hk
  have hshape : t.shape = t.shape.dropLast ++ [k] :=
    (List.dropLast_append_getLast hne).symm
  set m := t.shape.dropLast.prod with hmdef
  have hdata : t.data.length = m * k := by
    rw [hwf]
    conv_lhs => rw [hshape]
    rw [List.prod_append]
    simp
  simp only [reduceMaxLast, gatherLast, greedyAction, hget]
  congr 1
  apply List.map_congr_left
  intro j hj
  have hjm : j < m := List.mem_range.mp hj
  rw [getD_map_range m j _ hjm]
  rw [Int.toNat_natCast]
  set c := (t.data.drop (j * k)).take k with hcdef
  have hclen : c.length = k := chunk_length t.data k j m hdata hjm
  have hcne : c ≠ [] := by
    intro h
    rw [h] at hclen
    simp at hclen
    omega
  have hidx : argmaxIdx c < k := hclen ▸ argmaxIdx_lt_length c hcne
  rw [← chunk_getD t.data k j (argmaxIdx c) hidx]
  exact (getD_argmaxIdx c hcne).symm

lemma actions_values_of_impl (p : ActionValue) (f : Input5 → Components)
    (h : p.actions_values_impl = some f) (x : Input5) :
    p.actions_values x = .ok (f x) := by
  simp [ActionValue.actions_values, h]

lemma all_actions_values_of_impl (p : ActionValue) (f : Input4 → Components)
    (h : p.all_actions_values_impl = some f) (x : Input4) :
    p.all_actions_values x = .ok (f x) := by
  simp [ActionValue.all_actions_values, h]

lemma actions_value_of_impl (p : ActionValue) (f : Input5 → Components)
    (h : p.actions_values_impl = some f) (x : Input5) :
    p.actions_value x =
      .ok (tfConcat1 ((fmapZipSpecs (fun t s => tfReshape t s.size) (f x)
        p.actions_spec).map Prod.snd)) := by
  simp [ActionValue.actions_value, actions_values_of_impl p f h x]

lemma states_values_of_impl (p : ActionValue) (f : Input4 → Components)
    (h : p.all_actions_values_impl = some f) (x : Input4) :
    p.states_values x = .ok ((f x).map fun nt => (nt.1, reduceMaxLast nt.2)) := by
  simp [ActionValue.states_values, all_actions_values_of_impl p f h x]

lemma states_value_of_states_values (p : ActionValue) (sv : Components)
    (x : Input4) (h : p.states_values x = .ok sv) :
    p.states_value x =
      .ok (tfConcat1 ((fmapZipSpecs (fun t s => tfReshape t s.size) sv
        p.actions_spec).map Prod.snd)) := by
  simp [ActionValue.states_value, h]

/-- C6: invoking `actions_values` or `all_actions_values` on a base
`ActionValue` instance (no concrete subclass override) fails with the
not-implemented signal for every input, never returning a value. -/
theorem abstract_primitives_fail_on_base (p : ActionValue)
    (h5 : p.actions_values_impl = none) (h4 : p.all_actions_values_impl = none) :
    (∀ x : Input5, p.actions_values x = .error .notImplemented) ∧
    (∀ x : Input4, p.all_actions_values x = .error .notImplemented) := by
  constructor
  · intro x
    simp [ActionValue.actions_values, h5]
  · intro x
    simp [ActionValue.all_actions_values, h4]

/-- C6 witness: the base example instance fails on concrete inputs. -/
theorem abstract_primitives_fail_on_base_witness :
    basePolicy.actions_values exInput5 = .error .notImplemented ∧
    basePolicy.all_actions_values exInput4 = .error .notImplemented :=
  ⟨(abstract_primitives_fail_on_base basePolicy rfl rfl).1 exInput5,
   (abstract_primitives_fail_on_base basePolicy rfl rfl).2 exInput4⟩

/-- C7: for every operation name other than the five declared ones, both
`input_signature` and `output_signature` return exactly the parent `Policy`
declaration, unmodified. -/
theorem signature_delegates_to_parent (p : ActionValue) (f : String)
    (h1 : f ≠ "actions_value") (h2 : f ≠ "actions_values")
    (h3 : f ≠ "all_actions_values") (h4 : f ≠ "states_value")
    (h5 : f ≠ "states_values") :
    p.input_signature f = p.parent_input_signature f ∧
    p.output_signature f = p.parent_output_signature f := by
  constructor
  · simp [ActionValue.input_signature, h1, h2, h3, h4, h5]
  · simp [ActionValue.output_signature, h1, h2, h3, h4, h5]

/-- C7 witness: an unrecognized operation name delegates on the example
instance. -/
theorem signature_delegates_to_parent_witness :
    basePolicy.input_signature "act" = basePolicy.parent_input_signature "act" ∧
    basePolicy.output_signature "act" = basePolicy.parent_output_signature "act" :=
  signature_delegates_to_parent basePolicy "act" (by decide) (by decide)
    (by decide) (by decide) (by decide)

/-- C8: the declared input contracts accept 5 batched tensor groups for
`actions_value` and `actions_values` and 4 for the other three operations,
and in all five contracts the `horizons` entry is a batched integer tensor of
shape `(2,)`. -/
theorem input_signature_contracts (p : ActionValue) :
    (p.input_signature "actions_value").length = 5 ∧
    (p.input_signature "actions_values").length = 5 ∧
    (p.input_signature "all_actions_values").length = 4 ∧
    (p.input_signature "states_value").length = 4 ∧
    (p.input_signature "states_values").length = 4 ∧
    ∀ f ∈ (["actions_value", "actions_values", "all_actions_values",
            "states_value", "states_values"] : List String),
      (p.input_signature f).lookup "horizons"
        = some (.leaf ((TensorSpec.mk .int [2]).signature true)) := by
  refine ⟨rfl, rfl, rfl, rfl, rfl, ?_⟩
  intro f hf
  fin_cases hf <;> rfl

/-- C8 witness: the `horizons` entry of the declared `states_values` contract
on the example instance. -/
theorem input_signature_contracts_witness :
    (basePolicy.input_signature "states_values").lookup "horizons"
      = some (.leaf ((TensorSpec.mk .int [2]).signature true)) :=
  (input_signature_contracts basePolicy).2.2.2.2.2 "states_values" (by decide)

/-- C9: the operations are pure functions of their inputs and the shared
read-only state actually consulted (the actions spec and the estimator
overrides): two instances agreeing on those, with identical inputs, produce
identical outputs for every operation, whatever their remaining state. -/
theorem operations_pure (p q : ActionValue)
    (hspec : p.actions_spec = q.actions_spec)
    (h5 : p.actions_values_impl = q.actions_values_impl)
    (h4 : p.all_actions_values_impl = q.all_actions_values_impl) :
    (∀ x, p.actions_values x = q.actions_values x) ∧
    (∀ x, p.all_actions_values x = q.all_actions_values x) ∧
    (∀ x, p.actions_value x = q.actions_value x) ∧
    (∀ x, p.states_values x = q.states_values x) ∧
    (∀ x, p.states_value x = q.states_value x) := by
  refine ⟨?_, ?_, ?_, ?_, ?_⟩ <;> intro x <;>
    simp [ActionValue.actions_values, ActionValue.all_actions_values,
      ActionValue.actions_value, ActionValue.states_values,
      ActionValue.states_value, hspec, h5, h4]

/-- C9 witness: two example instances differing only in state the operations
never consult produce identical outputs on concrete inputs. -/
theorem operations_pure_witness :
    exPolicy.actions_value exInput5 = exPolicyAlt.actions_value exInput5 ∧
    exPolicy.states_value exInput4 = exPolicyAlt.states_value exInput4 :=
  ⟨(operations_pure exPolicy exPolicyAlt rfl rfl rfl).2.2.1 exInput5,
   (operations_pure exPolicy exPolicyAlt rfl rfl rfl).2.2.2.2 exInput4⟩

/-- C10: `output_signature` declares structurally identical contracts for
`actions_values` and `states_values`: per component, a batched float tensor
shaped by that component's own action-spec shape. -/
theorem values_output_signatures_identical (p : ActionValue) :
    p.output_signature "actions_values" = p.output_signature "states_values" ∧
    p.output_signature "actions_values"
      = [("singleton", .dict (p.actions_spec.map fun ns =>
          (ns.1, (TensorSpec.mk .float ns.2.shape).signature true)))] :=
  ⟨rfl, rfl⟩

/-- C1: for every batched input, the `states_values` component corresponding
to an `all_actions_values` table is, at every batch element and position, the
maximum over the table's trailing choice axis (membership plus upper bound),
and its shape is the table's shape with the trailing choice axis removed and
the batch axis preserved. -/
theorem states_values_max_reduction (p : ActionValue)
    (f : Input4 → Components) (x : Input4)
    (hf : p.all_actions_values_impl = some f)
    (i : Nat) (hi : i < (f x).length) (dims : List Nat) (k : Nat) (hk : 0 < k)
    (hshape : ((f x).getD i defaultComp).2.shape = dims ++ [k])
    (hwf : ((f x).getD i defaultComp).2.data.length = (dims ++ [k]).prod) :
    ∃ l : Components, p.states_values x = .ok l ∧ l.length = (f x).length ∧
      (l.getD i defaultComp).1 = ((f x).getD i defaultComp).1 ∧
      (l.getD i defaultComp).2.shape = dims ∧
      (l.getD i defaultComp).2.data.length = dims.prod ∧
      ∀ j, j < dims.prod →
        (l.getD i defaultComp).2.data.getD j 0
            ∈ (((f x).getD i defaultComp).2.data.drop (j * k)).take k ∧
        ∀ a ∈ (((f x).getD i defaultComp).2.data.drop (j * k)).take k,
          a ≤ (l.getD i defaultComp).2.data.getD j 0 := by
  refine ⟨(f x).map fun nt => (nt.1, reduceMaxLast nt.2),
    states_values_of_impl p f hf x, by simp, ?_⟩
  have hmap := getD_map_of_lt (fun nt : String × Tensor =>
    (nt.1, reduceMaxLast nt.2)) (f x) i hi defaultComp defaultComp
  rw [hmap]
  set t := ((f x).getD i defaultComp).2 with htdef
  have hred := reduceMaxLast_of_concat_shape t dims k hshape
  have hdata : t.data.length = dims.prod * k := by
    rw [hwf, List.prod_append]
    simp
  refine ⟨rfl, by rw [hred], by rw [hred]; simp, ?_⟩
  intro j hj
  have hgd : (reduceMaxLast t).data.getD j 0
      = listMax ((t.data.drop (j * k)).take k) := by
    rw [hred]
    exact getD_map_range dims.prod j _ hj
  have hclen : ((t.data.drop (j * k)).take k).length = k :=
    chunk_length t.data k j dims.prod hdata hj
  have hcne : (t.data.drop (j * k)).take k ≠ [] := by
    intro h
    rw [h] at hclen
    simp at hclen
    omega
  constructor
  · rw [hgd]
    exact listMax_mem _ hcne
  · intro a ha
    rw [hgd]
    exact le_listMax _ a ha

/-- C1 witness: on the example table for `move` (shape `[2, 2, 3]`), the
reduced component exists, strips the trailing axis and is the chunkwise
maximum. -/
theorem states_values_max_reduction_witness :
    ∃ l : Components, exPolicy.states_values exInput4 = .ok l ∧
      l.length = (exF4 exInput4).length ∧
      (l.getD 0 defaultComp).1 = ((exF4 exInput4).getD 0 defaultComp).1 ∧
      (l.getD 0 defaultComp).2.shape = [2, 2] ∧
      (l.getD 0 defaultComp).2.data.length = ([2, 2] : List Nat).prod ∧
      ∀ j, j < ([2, 2] : List Nat).prod →
        (l.getD 0 defaultComp).2.data.getD j 0
            ∈ (((exF4 exInput4).getD 0 defaultComp).2.data.drop (j * 3)).take 3 ∧
        ∀ a ∈ (((exF4 exInput4).getD 0 defaultComp).2.data.drop (j * 3)).take 3,
          a ≤ (l.getD 0 defaultComp).2.data.getD j 0 :=
  states_values_max_reduction exPolicy exF4 exInput4 rfl 0 (by decide)
    [2, 2] 3 (by decide) (by decide) (by decide)

/-- C2: `actions_value` returns exactly the result of `actions_values` with
each component's value tensor reshaped to `(batch, component size)` and the
reshaped tensors concatenated along the component axis in actions-spec order
(the spec-described flattening `specFlatten`), whenever the estimator output
conforms to the actions spec at batch size `b`. -/
theorem actions_value_is_flattened_actions_values (p : ActionValue)
    (f : Input5 → Components) (x : Input5) (b : Nat)
    (hf : p.actions_values_impl = some f)
    (hconf : List.Forall₂ (conforms b) (f x) p.actions_spec)
    (hne : f x ≠ []) :
    p.actions_value x =
      .ok (specFlatten b ((f x).map Prod.snd)
        (p.actions_spec.map fun ns => ns.2.size)) := by
  rw [actions_value_of_impl p f hf x,
    tfConcat_fmapZip_eq_specFlatten b (f x) p.actions_spec hconf hne]

/-- C2 witness: on the example estimator at batch size 2, `actions_value` is
the spec-described flattening. -/
theorem actions_value_is_flattened_actions_values_witness :
    exPolicy.actions_value exInput5 =
      .ok (specFlatten 2 ((exF5 exInput5).map Prod.snd)
        (exPolicy.actions_spec.map fun ns => ns.2.size)) :=
  actions_value_is_flattened_actions_values exPolicy exF5 exInput5 2 rfl
    (.cons (by decide) (.cons (by decide) .nil)) (by decide)

/-- C3: `states_value` returns exactly the result of `states_values` with
each component's reduced value reshaped to `(batch, component size)` and
concatenated across components in actions-spec order — the identical
flattening convention (`specFlatten`) as `actions_value`. -/
theorem states_value_is_flattened_states_values (p : ActionValue)
    (sv : Components) (x : Input4) (b : Nat)
    (hsv : p.states_values x = .ok sv)
    (hconf : List.Forall₂ (conforms b) sv p.actions_spec)
    (hne : sv ≠ []) :
    p.states_value x =
      .ok (specFlatten b (sv.map Prod.snd)
        (p.actions_spec.map fun ns => ns.2.size)) := by
  rw [states_value_of_states_values p sv x hsv,
    tfConcat_fmapZip_eq_specFlatten b sv p.actions_spec hconf hne]

/-- C3 witness: on the example estimator at batch size 2, `states_value` is
the spec-described flattening of the reduced component values. -/
theorem states_value_is_flattened_states_values_witness :
    exPolicy.states_value exInput4 =
      .ok (specFlatten 2
        (((exF4 exInput4).map fun nt => (nt.1, reduceMaxLast nt.2)).map Prod.snd)
        (exPolicy.actions_spec.map fun ns => ns.2.size)) :=
  states_value_is_flattened_states_values exPolicy
    ((exF4 exInput4).map fun nt => (nt.1, reduceMaxLast nt.2)) exInput4 2
    (states_values_of_impl exPolicy exF4 rfl exInput4)
    (.cons (by decide) (.cons (by decide) .nil)) (by decide)

/-- C4: for a conforming estimator over a non-empty actions spec and batch
size at least 1, `actions_value` and `states_value` both produce a tensor of
width equal to the sum of the flattened sizes of all action components, and
the declared output signatures of both operations state that same width. -/
theorem value_output_width (p : ActionValue) (b : Nat)
    (f5 : Input5 → Components) (f4 : Input4 → Components)
    (x5 : Input5) (x4 : Input4)
    (h5 : p.actions_values_impl = some f5)
    (h4 : p.all_actions_values_impl = some f4)
    (_hb : 1 ≤ b) (hne : p.actions_spec ≠ [])
    (hconf5 : List.Forall₂ (conforms b) (f5 x5) p.actions_spec)
    (hconf4 : List.Forall₂ (conforms b)
      ((f4 x4).map fun nt => (nt.1, reduceMaxLast nt.2)) p.actions_spec) :
    (∃ t, p.actions_value x5 = .ok t ∧
      t.shape = [b, p.actions_spec.totalSize]) ∧
    (∃ t, p.states_value x4 = .ok t ∧
      t.shape = [b, p.actions_spec.totalSize]) ∧
    p.output_signature "actions_value"
      = [("singleton",
          .leaf ((TensorSpec.mk .float [p.actions_spec.totalSize]).signature true))] ∧
    p.output_signature "states_value"
      = [("singleton",
          .leaf ((TensorSpec.mk .float [p.actions_spec.totalSize]).signature true))] := by
  have hne5 : f5 x5 ≠ [] := by
    apply List.ne_nil_of_length_pos
    rw [hconf5.length_eq]
    exact List.length_pos.mpr hne
  have hne4 : ((f4 x4).map fun nt => (nt.1, reduceMaxLast nt.2)) ≠ [] := by
    apply List.ne_nil_of_length_pos
    rw [hconf4.length_eq]
    exact List.length_pos.mpr hne
  refine ⟨⟨specFlatten b ((f5 x5).map Prod.snd)
      (p.actions_spec.map fun ns => ns.2.size), ?_, ?_⟩,
    ⟨specFlatten b (((f4 x4).map fun nt => (nt.1, reduceMaxLast nt.2)).map Prod.snd)
      (p.actions_spec.map fun ns => ns.2.size), ?_, ?_⟩, rfl, rfl⟩
  · rw [actions_value_of_impl p f5 h5 x5,
      tfConcat_fmapZip_eq_specFlatten b (f5 x5) p.actions_spec hconf5 hne5]
  · rfl
  · rw [states_value_of_states_values p _ x4 (states_values_of_impl p f4 h4 x4),
      tfConcat_fmapZip_eq_specFlatten b _ p.actions_spec hconf4 hne4]
  · rfl

/-- C4 witness: on the example spec (flattened sizes 2 and 1) at batch size
2, both operations produce width-3 tensors and both declared signatures state
width 3. -/
theorem value_output_width_witness :
    (∃ t, exPolicy.actions_value exInput5 = .ok t ∧
      t.shape = [2, exPolicy.actions_spec.totalSize]) ∧
    (∃ t, exPolicy.states_value exInput4 = .ok t ∧
      t.shape = [2, exPolicy.actions_spec.totalSize]) ∧
    exPolicy.output_signature "actions_value"
      = [("singleton",
          .leaf ((TensorSpec.mk .float [exPolicy.actions_spec.totalSize]).signature true))] ∧
    exPolicy.output_signature "states_value"
      = [("singleton",
          .leaf ((TensorSpec.mk .float [exPolicy.actions_spec.totalSize]).signature true))] :=
  value_output_width exPolicy 2 exF5 exF4 exInput5 exInput4 rfl rfl
    (by decide) (by decide)
    (.cons (by decide) (.cons (by decide) .nil))
    (.cons (by decide) (.cons (by decide) .nil))

/-- C5: for an estimator whose `actions_values` agrees with its
`all_actions_values` table (reading the value of a joint action off the table
along the choice axis), `states_value` equals `actions_value` applied to the
same inputs together with the greedy joint action, the per-component argmax
of `all_actions_values`. -/
theorem states_value_eq_actions_value_at_greedy (p : ActionValue)
    (f5 : Input5 → Components) (f4 : Input4 → Components)
    (x : Input4) (acts : Components)
    (h5 : p.actions_values_impl = some f5)
    (h4 : p.all_actions_values_impl = some f4)
    (_hacts : acts = (f4 x).map fun nt => (nt.1, greedyAction nt.2))
    (hcons : f5 ⟨x, acts⟩
      = (f4 x).map fun nt => (nt.1, gatherLast nt.2 (greedyAction nt.2)))
    (hwf : ∀ nt ∈ f4 x,
      nt.2.data.length = nt.2.shape.prod ∧ 0 < nt.2.shape.getLastD 0) :
    p.states_value x = p.actions_value ⟨x, acts⟩ := by
  have hmaps : ((f4 x).map fun nt => (nt.1, reduceMaxLast nt.2))
      = (f4 x).map fun nt => (nt.1, gatherLast nt.2 (greedyAction nt.2)) := by
    apply List.map_congr_left
    intro nt hnt
    rw [reduceMaxLast_eq_gatherLast_greedy nt.2 (hwf nt hnt).1 (hwf nt hnt).2]
  rw [states_value_of_states_values p _ x (states_values_of_impl p f4 h4 x),
    actions_value_of_impl p f5 h5 ⟨x, acts⟩, hcons, hmaps]

/-- C5 witness: on the consistent example estimator, `states_value` at the
example input equals `actions_value` at the greedy joint action. -/
theorem states_value_eq_actions_value_at_greedy_witness :
    exPolicyGreedy.states_value exInput4
      = exPolicyGreedy.actions_value ⟨exInput4, exGreedyActs⟩ :=
  states_value_eq_actions_value_at_greedy exPolicyGreedy exF5Greedy exF4
    exInput4 exGreedyActs rfl rfl rfl rfl (by decide)
